import Mathlib

/-!
Shallow embedding of the metadata synchronization engine of
`src/src/MetadataManager.ts` (the `MetadataManager` class and its
`MetadataFileCache` entries), together with the path utilities it calls.

Conventions of the embedding:
* JavaScript plain values ("frontmatter" data) are modelled by the inductive
  type `Val`: ordered string-keyed mappings, sequences, and the scalars
  string / number / boolean / null.  Numbers are modelled as `Int`.
* JavaScript `undefined` is modelled as `Option.none` wherever a value can be
  absent (a path that does not resolve, an optional `uuid` argument).
* Listener callbacks are not modelled as functions; instead every operation
  that would invoke callbacks returns the list of notification events
  `(uuid of the notified listener, value passed to its callback)` in the
  order the source's loop would fire them.
* The two asynchronous effects (the initial `vault.cachedRead` of a newly
  created entry, and the `setFrontmatterOfTFile` write issued by the tick
  cycle) are modelled as explicit pending-request queues on the manager
  state; their later completion (or failure) is a separate step function,
  matching the single-threaded event-loop model of the source.
-/

set_option autoImplicit false

namespace MetaBind

/-- A structured ("frontmatter-like") value: an ordered mapping from string
keys to values, a sequence, or a scalar (string, number, boolean, null).
A sequence is modelled as a JavaScript array: a list of element cells —
`none` is a hole, which reads back as `undefined` — together with the
array object's non-index string properties (assigning a non-index key to
an array sets a plain property, and such keys read back through it). -/
inductive Val : Type where
  | vnull : Val
  | vbool : Bool → Val
  | vnum : Int → Val
  | vstr : String → Val
  | varr : List (Option Val) → List (String × Val) → Val
  | vobj : List (String × Val) → Val

/-- Look up a key in an ordered mapping; first binding wins (a JavaScript
object has no duplicate keys, so on faithful states this is exact). -/
def objGet (fields : List (String × Val)) (k : String) : Option Val :=
  (fields.find? (fun p => p.1 == k)).map Prod.snd

/-- The decimal value of a digit character, `none` on anything else. -/
def charDigit (c : Char) : Option Nat :=
  if '0' ≤ c && c ≤ '9' then some (c.toNat - '0'.toNat) else none

/-- Accumulate the remaining digits of a decimal numeral, `none` on a
non-digit. -/
def decDigits : List Char → Nat → Option Nat
  | [], acc => some acc
  | c :: rest, acc =>
    match charDigit c with
    | some d => decDigits rest (acc * 10 + d)
    | none => none

/-- The array-index test JavaScript applies to a property key on an array:
the key counts as an index only when it is the canonical decimal numeral of
a number (no sign, no leading zero except `"0"` itself); every other key —
`"05"`, `"-1"`, `"foo"` — addresses a plain property of the array object.
(Keys at or past 2^32 - 1, which JavaScript also demotes to plain
properties, are outside the model.) -/
def jsArrayIndex (k : String) : Option Nat :=
  match k.data with
  | [] => none
  | '0' :: rest => if rest.isEmpty then some 0 else none
  | c :: rest =>
    match charDigit c with
    | some d => decDigits rest d
    | none => none

/-- One step of JavaScript property access `v?.[seg]` on a structured value:
a key into a mapping; on a sequence, a canonical numeric index reads the
element cell (a hole or an out-of-range index is `undefined`) and any other
key reads the array's plain properties; scalars have no children
(`undefined`).  Built-in properties such as an array's `length` are outside
the model. -/
def getSeg (v : Val) (seg : String) : Option Val :=
  match v with
  | Val.vobj fields => objGet fields seg
  | Val.varr xs props =>
    match jsArrayIndex seg with
    | some i =>
      match xs.get? i with
      | some cell => cell
      | none => none
    | none => objGet props seg
  | _ => none

/-- Modelled from the spec: the Path Utility `get(data, path)`
(`traverseObjectByPath` of `@opd-libs/opd-utils-lib`, not under `src/`):
traverses segment by segment, `none` when a segment along the path does not
exist (JavaScript `prev?.[curr]` reduction). -/
def getPath (v : Val) (path : List String) : Option Val :=
  match path with
  | [] => some v
  | seg :: rest =>
    match getSeg v seg with
    | some c => getPath c rest
    | none => none

/-- JavaScript strict equality `===` on structured values, as used by the
redundant-update check `child.value === value` (MetadataManager.ts line 130).
Scalars compare by value; mappings and sequences compare by reference, and a
value freshly supplied by a consumer is never reference-equal to the stored
one, so the model returns `false` for composites. -/
def jsStrictEq : Val → Val → Bool
  | Val.vnull, Val.vnull => true
  | Val.vbool a, Val.vbool b => a == b
  | Val.vnum a, Val.vnum b => a == b
  | Val.vstr a, Val.vstr b => a == b
  | _, _ => false

/-- Strict equality against a possibly-undefined stored child:
`undefined === value` is false for every modelled value. -/
def jsStrictEqOpt (child : Option Val) (value : Val) : Bool :=
  match child with
  | some cv => jsStrictEq cv value
  | none => false

/-- Set (insert or replace, preserving order) a key in an ordered mapping,
as JavaScript property assignment does: an existing key keeps its position,
a new key is appended. -/
def objSet : List (String × Val) → String → Val → List (String × Val)
  | [], k, v => [(k, v)]
  | p :: rest, k, v =>
    if p.1 == k then (k, v) :: rest else p :: objSet rest k v

/-- The JavaScript assignment `parentValue[key] = v` (MetadataManager.ts
line 135): on a mapping it sets the key; on a sequence, a canonical numeric
index in range replaces the element, an index past the end extends the
sequence with holes up to it, and any other key is set as a plain property
of the array object — the assignment always succeeds on a container.  Only
on a scalar does the strict-mode assignment fail (`none`, a thrown
TypeError in the source's module code). -/
def setChild (parent : Val) (k : String) (v : Val) : Option Val :=
  match parent with
  | Val.vobj fields => some (Val.vobj (objSet fields k v))
  | Val.varr xs props =>
    match jsArrayIndex k with
    | some i =>
      if i < xs.length then some (Val.varr (xs.set i (some v)) props)
      else some (Val.varr (xs ++ (List.replicate (i - xs.length) none ++ [some v])) props)
    | none => some (Val.varr xs (objSet props k v))
  | _ => none

/-- The in-place mutation `parent.value[child.key] = value` seen from the
root: rebuild the data along `path`, replacing the value at the final
segment.  `none` when the chain cannot be traversed or the final assignment
fails. -/
def setAtPath (data : Val) (path : List String) (v : Val) : Option Val :=
  match path with
  | [] => none
  | [k] => setChild data k v
  | k :: rest =>
    match getSeg data k with
    | some c =>
      match setAtPath c rest v with
      | some c2 => setChild data k c2
      | none => none
    | none => none

/-- A registered listener (`MetadataFileCache.listeners` element): the bound
path, and the uuid of the consumer.  The `onCacheUpdate` callback is not a
field; invocations of it are returned as events. -/
structure Listener : Type where
  metadataPath : List String
  uuid : String

/-- A per-document cache entry (`MetadataFileCache`).  `entryId` is a model
artifact standing for the JavaScript object's identity: the asynchronous
load and write continuations of the source capture the entry object itself,
so their completions are keyed by this identity, not by the file path. -/
structure MetadataFileCache : Type where
  entryId : Nat
  filePath : String
  metadata : Val
  listeners : List Listener
  cyclesSinceLastUpdate : Nat
  changed : Bool

/-- A notification event: the uuid of the notified listener and the value
passed to its `onCacheUpdate` callback (`none` = JavaScript `undefined`). -/
abbrev Event := String × Option Val

/-- The origin-exclusion test `exceptUuid && exceptUuid === listener.uuid`
of `notifyListeners` (line 171): the skip fires only when `exceptUuid` is
truthy, so an absent or empty-string uuid excludes nobody. -/
def skipListener (exceptUuid : Option String) (l : Listener) : Bool :=
  match exceptUuid with
  | some u => !(u == "") && u == l.uuid
  | none => false

/-- `notifyListeners(fileCache, metadataPath?, exceptUuid?)` (lines 164-185):
with a path, notifies the listeners whose path equals it (`arrayEquals`,
modelled from the spec as list equality) with the value at that path; with
no path, notifies every listener with the value at its own path.  Returns
the events in the order the loop fires them. -/
def notifyListeners (fc : MetadataFileCache) (metadataPath : Option (List String))
    (exceptUuid : Option String) : List Event :=
  match metadataPath with
  | some path =>
    let value := getPath fc.metadata path
    fc.listeners.filterMap (fun l =>
      if skipListener exceptUuid l then none
      else if path == l.metadataPath then some (l.uuid, value)
      else none)
  | none =>
    fc.listeners.filterMap (fun l =>
      if skipListener exceptUuid l then none
      else some (l.uuid, getPath fc.metadata l.metadataPath))

/-- A pending (issued, not yet resolved) `setFrontmatterOfTFile` write:
a fresh write id, the id of the entry it was issued for, and the payload. -/
structure PendingWrite : Type where
  writeId : Nat
  entryId : Nat
  payload : Val

/-- The `MetadataManager` state.  `cache` is the entry list; `pendingLoads`
holds the entry ids whose initial `vault.cachedRead` has not yet resolved;
`pendingWrites` holds the issued but unresolved frontmatter writes.  The
counters mint fresh identities for entries and writes. -/
structure MetadataManager : Type where
  cache : List MetadataFileCache
  updateCycleThreshold : Nat
  nextEntryId : Nat
  nextWriteId : Nat
  pendingLoads : List Nat
  pendingWrites : List PendingWrite

/-- `getCacheForFile` (lines 79-81): first entry whose file path matches. -/
def getCacheForFile (m : MetadataManager) (filePath : String) : Option MetadataFileCache :=
  m.cache.find? (fun x => x.filePath == filePath)

/-- Replace the first entry with the given file path (the source mutates the
object `find` returned, so only the first match is affected). -/
def replaceEntry (cache : List MetadataFileCache) (filePath : String)
    (fc : MetadataFileCache) : List MetadataFileCache :=
  match cache with
  | [] => []
  | x :: xs =>
    if x.filePath == filePath then fc :: xs
    else x :: replaceEntry xs filePath fc

/-- `register(file, onCacheUpdate, metadataPath, uuid)` (lines 37-62): append
a listener to an existing entry, or create a fresh entry (empty metadata,
counter 0, not dirty) and begin its asynchronous load.  Returns the entry
handed back to the caller, and the listener invocations the call itself
performs — always none, since the body contains no callback call:
notification on load completion is the separate `resolveLoad` step. -/
def register (m : MetadataManager) (filePath : String) (l : Listener) :
    MetadataManager × MetadataFileCache × List Event :=
  match getCacheForFile m filePath with
  | some fc =>
    let fc2 := { fc with listeners := fc.listeners ++ [l] }
    ({ m with cache := replaceEntry m.cache filePath fc2 }, fc2, [])
  | none =>
    let c : MetadataFileCache :=
      { entryId := m.nextEntryId, filePath := filePath, metadata := Val.vobj [],
        listeners := [l], cyclesSinceLastUpdate := 0, changed := false }
    ({ m with cache := m.cache ++ [c], nextEntryId := m.nextEntryId + 1,
              pendingLoads := m.pendingLoads ++ [m.nextEntryId] }, c, [])

/-- Resolution of a pending initial load (the `.then` continuation of
`vault.cachedRead`, lines 53-57): the captured entry object receives the
parsed metadata (`getMetaDataFromFileContent(value) ?? {}`, supplied here as
`loaded`) and all its listeners are notified at their own paths.  If the
entry has been dropped from the cache, the continuation runs against the
detached object and nothing observable happens. -/
def resolveLoad (m : MetadataManager) (entryId : Nat) (loaded : Val) :
    MetadataManager × List Event :=
  let m1 := { m with pendingLoads := m.pendingLoads.erase entryId }
  match m1.cache.find? (fun x => x.entryId == entryId) with
  | some fc =>
    let fc2 := { fc with metadata := loaded }
    ({ m1 with cache := m1.cache.map (fun x => if x.entryId == entryId then fc2 else x) },
     notifyListeners fc2 none none)
  | none => (m1, [])

/-- Failure of a pending initial load: `cachedRead(file).then(...)` has no
rejection handler, so nothing in the registry runs — the entry keeps its
empty metadata and no new read is started. -/
def failLoad (m : MetadataManager) (entryId : Nat) : MetadataManager :=
  { m with pendingLoads := m.pendingLoads.erase entryId }

/-- `unregister(file, uuid)` (lines 64-77): drop the listeners with that
uuid; if none remain, drop every entry with that file path from the cache.
No pending load or write is cancelled. -/
def unregister (m : MetadataManager) (filePath : String) (uuid : String) :
    MetadataManager :=
  match getCacheForFile m filePath with
  | none => m
  | some fc =>
    let fc2 := { fc with listeners := fc.listeners.filter (fun x => !(x.uuid == uuid)) }
    let cache2 := replaceEntry m.cache filePath fc2
    if fc2.listeners.length == 0 then
      { m with cache := cache2.filter (fun x => !(x.filePath == filePath)) }
    else
      { m with cache := cache2 }

/-- The per-entry body of the periodic `update()` loop (lines 86-91) given
the next fresh write id: if the entry is dirty, `updateFrontmatter` runs
synchronously up to its `await` — it clears `changed` and issues the write
with the entry's current metadata (lines 94-98) — and in every case the
recency counter is incremented.  Returns the updated entry and the issued
writes (none or one). -/
def tickEntry (wid : Nat) (fc : MetadataFileCache) :
    MetadataFileCache × List PendingWrite :=
  if fc.changed then
    ({ fc with changed := false, cyclesSinceLastUpdate := fc.cyclesSinceLastUpdate + 1 },
     [{ writeId := wid, entryId := fc.entryId, payload := fc.metadata }])
  else
    ({ fc with cyclesSinceLastUpdate := fc.cyclesSinceLastUpdate + 1 }, [])

/-- Fold of `tickEntry` over the entry list in order, threading the fresh
write-id counter. -/
def tickCache (wid : Nat) : List MetadataFileCache →
    List MetadataFileCache × List PendingWrite × Nat
  | [] => ([], [], wid)
  | fc :: rest =>
    let r := tickEntry wid fc
    let rec2 := tickCache (wid + r.2.length) rest
    (r.1 :: rec2.1, r.2 ++ rec2.2.1, rec2.2.2)

/-- `update()` — one tick of the periodic interval (lines 83-92): every
dirty entry has a frontmatter write issued (and `changed` cleared at issue
time, before the write completes); every entry's recency counter is
incremented.  No check against writes already in flight is made. -/
def tick (m : MetadataManager) : MetadataManager :=
  let r := tickCache m.nextWriteId m.cache
  { m with cache := r.1, pendingWrites := m.pendingWrites ++ r.2.1,
           nextWriteId := r.2.2 }

/-- Successful completion of a pending frontmatter write: nothing follows
the `await` in `updateFrontmatter`, so the write merely leaves the pending
set. -/
def resolveWrite (m : MetadataManager) (writeId : Nat) : MetadataManager :=
  { m with pendingWrites := m.pendingWrites.filter (fun w => !(w.writeId == writeId)) }

/-- Failed completion of a pending frontmatter write: `update()` neither
awaits nor catches `updateFrontmatter`, and `changed` was already cleared
when the write was issued, so the failure changes nothing in the registry —
in particular the entry is NOT re-marked dirty. -/
def failWrite (m : MetadataManager) (writeId : Nat) : MetadataManager :=
  { m with pendingWrites := m.pendingWrites.filter (fun w => !(w.writeId == writeId)) }

/-- The error thrown by `updatePropertyInMetadataFileCache`:
`missingParentPath` is the explicit `throw Error(...)` of line 127 when the
parent of the path resolved to `undefined`; `assignmentFailed` is the
strict-mode TypeError of the assignment on line 135 when the located parent
is a scalar (or a sequence without that index). -/
inductive UpdateError : Type where
  | missingParentPath : UpdateError
  | assignmentFailed : UpdateError

/-- The mutation applied to an entry when new data is stored by a local
update or an accepted external change (lines 135-137 and 157-159): new
metadata, recency counter zeroed, dirty flag set. -/
def storeDirty (fc : MetadataFileCache) (md2 : Val) : MetadataFileCache :=
  { fc with metadata := md2, cyclesSinceLastUpdate := 0, changed := true }

/-- The entry-level core of `updatePropertyInMetadataFileCache` (lines
124-139), after the entry has been found.  Mirrors the source order:
locate the parent (`traverseObjectToParentByPath`, modelled from the spec as
`getPath` over the dropped-last path, with the child read off the parent at
the final segment); throw `missingParentPath` when the parent is
`undefined`; skip the update when the stored child is strict-equal to the
new value; otherwise assign, zero the recency counter, mark dirty, and
notify the listeners on that path except the originating uuid. -/
def updatePropertyInCache (value : Val) (pathParts : List String)
    (uuid : Option String) (fc : MetadataFileCache) :
    Except UpdateError (MetadataFileCache × List Event) :=
  match getPath fc.metadata pathParts.dropLast with
  | none => Except.error UpdateError.missingParentPath
  | some parentVal =>
    let child : Option Val :=
      match pathParts.getLast? with
      | some k => getSeg parentVal k
      | none => none
    if jsStrictEqOpt child value then
      Except.ok (fc, [])
    else
      match setAtPath fc.metadata pathParts value with
      | none => Except.error UpdateError.assignmentFailed
      | some md2 =>
        let fc2 := storeDirty fc md2
        Except.ok (fc2, notifyListeners fc2 (some pathParts) uuid)

/-- `updatePropertyInMetadataFileCache(value, pathParts, file, uuid?)`
(lines 115-140) at the manager level: a silent no-op when no entry exists
for the file; otherwise the entry-level update, with a thrown error
reported alongside the (then unchanged) state. -/
def updatePropertyInMetadataFileCache (m : MetadataManager) (value : Val)
    (pathParts : List String) (filePath : String) (uuid : Option String) :
    MetadataManager × List Event × Option UpdateError :=
  match getCacheForFile m filePath with
  | none => (m, [], none)
  | some fc =>
    match updatePropertyInCache value pathParts uuid fc with
    | Except.error e => (m, [], some e)
    | Except.ok (fc2, events) =>
      ({ m with cache := replaceEntry m.cache filePath fc2 }, events, none)

/-- `updateMetadataFileCacheOnFrontmatterUpdate(file, data, cache)` (lines
142-162): ingestion of an external change.  `frontmatter` is the snapshot's
field list (`cache.frontmatter`).  With no entry, or while the entry's
recency counter is below `updateCycleThreshold`, the change is dropped.
Otherwise the entry's data becomes a copy of the snapshot with the
`position` bookkeeping key deleted, the counter is zeroed, the entry is
marked dirty, and every listener is notified with the value at its own
path. -/
def updateMetadataFileCacheOnFrontmatterUpdate (m : MetadataManager)
    (filePath : String) (frontmatter : List (String × Val)) :
    MetadataManager × List Event :=
  match getCacheForFile m filePath with
  | none => (m, [])
  | some fc =>
    if fc.cyclesSinceLastUpdate < m.updateCycleThreshold then (m, [])
    else
      let md2 := Val.vobj (frontmatter.filter (fun p => !(p.1 == "position")))
      let fc2 := storeDirty fc md2
      ({ m with cache := replaceEntry m.cache filePath fc2 },
       notifyListeners fc2 none none)

/-! ### Concrete fixtures for witnesses and counterexamples -/

def emptyManager : MetadataManager :=
  { cache := [], updateCycleThreshold := 5, nextEntryId := 0, nextWriteId := 0,
    pendingLoads := [], pendingWrites := [] }

def dataAB : Val := Val.vobj [("a", Val.vobj [("b", Val.vnum 1)])]

def listener1 : Listener := { metadataPath := ["a", "b"], uuid := "L1" }

def listener2 : Listener := { metadataPath := ["a", "b"], uuid := "L2" }

def entryAB : MetadataFileCache :=
  { entryId := 0, filePath := "f", metadata := dataAB,
    listeners := [listener1, listener2], cyclesSinceLastUpdate := 0, changed := false }

def managerAB : MetadataManager :=
  { cache := [entryAB], updateCycleThreshold := 5, nextEntryId := 1, nextWriteId := 0,
    pendingLoads := [], pendingWrites := [] }

def entryAB5 : MetadataFileCache := { entryAB with cyclesSinceLastUpdate := 5 }

def managerAB5 : MetadataManager := { managerAB with cache := [entryAB5] }

def c2Entry : MetadataFileCache :=
  { entryId := 0, filePath := "f", metadata := dataAB,
    listeners := [{ metadataPath := ["a"], uuid := "L2" }],
    cyclesSinceLastUpdate := 3, changed := false }

def c2Manager : MetadataManager :=
  { cache := [c2Entry], updateCycleThreshold := 5, nextEntryId := 1, nextWriteId := 0,
    pendingLoads := [], pendingWrites := [] }

def dataArr : Val :=
  Val.vobj [("xs", Val.varr [some (Val.vnum 1), some (Val.vnum 2)] [])]

def c4ArrEntry : MetadataFileCache :=
  { entryId := 0, filePath := "f", metadata := dataArr,
    listeners := [{ metadataPath := ["xs", "5"], uuid := "L1" },
                  { metadataPath := ["xs", "5"], uuid := "L2" }],
    cyclesSinceLastUpdate := 0, changed := false }

def c4ArrManager : MetadataManager :=
  { cache := [c4ArrEntry], updateCycleThreshold := 5, nextEntryId := 1, nextWriteId := 0,
    pendingLoads := [], pendingWrites := [] }

def c4Entry : MetadataFileCache :=
  { entryId := 0, filePath := "f", metadata := dataAB,
    listeners := [{ metadataPath := ["a", "b"], uuid := "" }],
    cyclesSinceLastUpdate := 0, changed := false }

def c4Manager : MetadataManager :=
  { cache := [c4Entry], updateCycleThreshold := 5, nextEntryId := 1, nextWriteId := 0,
    pendingLoads := [], pendingWrites := [] }

def c5Entry : MetadataFileCache :=
  { entryId := 0, filePath := "f", metadata := dataAB,
    listeners := [listener1], cyclesSinceLastUpdate := 0, changed := true }

def c5Start : MetadataManager :=
  { cache := [c5Entry], updateCycleThreshold := 5, nextEntryId := 1, nextWriteId := 0,
    pendingLoads := [], pendingWrites := [] }

def c5AfterFirstTick : MetadataManager := tick c5Start

def c5Redirtied : MetadataManager :=
  (updatePropertyInMetadataFileCache c5AfterFirstTick (Val.vnum 2) ["a", "b"] "f"
    (some "L1")).1

def c5AfterSecondTick : MetadataManager := tick c5Redirtied

def c6Entry : MetadataFileCache :=
  { entryId := 0, filePath := "f", metadata := dataAB,
    listeners := [listener1], cyclesSinceLastUpdate := 0, changed := true }

def c6Start : MetadataManager :=
  { cache := [c6Entry], updateCycleThreshold := 5, nextEntryId := 1, nextWriteId := 0,
    pendingLoads := [], pendingWrites := [] }

def c6Issued : MetadataManager := tick c6Start

def c6Failed : MetadataManager := failWrite c6Issued 0

def c6NextTick : MetadataManager := tick c6Failed

def c6ReadStart : MetadataManager := (register emptyManager "g" listener1).1

def c6ReadFailed : MetadataManager := failLoad c6ReadStart 0

/-! ### Lemmas about the path utility -/

theorem objGet_objSet (fields : List (String × Val)) (k : String) (v : Val) :
    objGet (objSet fields k v) k = some v := by
  induction fields with
  | nil => simp [objSet, objGet]
  | cons p rest ih =>
    cases hpk : (p.1 == k) with
    | true => simp [objSet, hpk, objGet]
    | false =>
      have hr : objSet (p :: rest) k v = p :: objSet rest k v := by
        simp [objSet, hpk]
      rw [hr]
      simp only [objGet] at ih ⊢
      rw [List.find?_cons_of_neg _ (by simp [hpk])]
      exact ih

theorem getSeg_setChild (parent : Val) (k : String) (v p2 : Val)
    (h : setChild parent k v = some p2) : getSeg p2 k = some v := by
  cases parent with
  | vobj fields =>
    simp only [setChild, Option.some.injEq] at h
    subst h
    simp [getSeg, objGet_objSet]
  | varr xs props =>
    cases hn : jsArrayIndex k with
    | none =>
      simp only [setChild, hn, Option.some.injEq] at h
      subst h
      simp [getSeg, hn, objGet_objSet]
    | some i =>
      by_cases hl : i < xs.length
      · simp only [setChild, hn, if_pos hl, Option.some.injEq] at h
        subst h
        simp [getSeg, hn, List.get?_eq_getElem?, List.getElem?_set_self',
          List.getElem?_eq_getElem hl]
      · simp only [setChild, hn, if_neg hl, Option.some.injEq] at h
        subst h
        have hle : xs.length ≤ i := Nat.le_of_not_lt hl
        have hget : (xs ++ (List.replicate (i - xs.length) none ++ [some v]))[i]?
            = some (some v) := by
          rw [List.getElem?_append_right hle, List.getElem?_append_right (by simp)]
          simp
        simp [getSeg, hn, hget]
  | vnull => cases h
  | vbool b => cases h
  | vnum n => cases h
  | vstr s => cases h

theorem getPath_setAtPath (path : List String) (data d2 v : Val)
    (h : setAtPath data path v = some d2) : getPath d2 path = some v := by
  induction path generalizing data d2 with
  | nil => cases h
  | cons k rest ih =>
    cases rest with
    | nil =>
      simp only [setAtPath] at h
      simp [getPath, getSeg_setChild data k v d2 h]
    | cons k2 rest2 =>
      cases hg : getSeg data k with
      | none => simp [setAtPath, hg] at h
      | some c =>
        cases hs : setAtPath c (k2 :: rest2) v with
        | none => simp [setAtPath, hg, hs] at h
        | some c2 =>
          simp only [setAtPath, hg, hs] at h
          have hgc : getSeg d2 k = some c2 := getSeg_setChild data k c2 d2 h
          simp only [getPath, hgc]
          exact ih c c2 hs

theorem getPath_concat (p : List String) (k : String) (data : Val) :
    getPath data (p ++ [k]) =
      match getPath data p with
      | some x => getSeg x k
      | none => none := by
  induction p generalizing data with
  | nil =>
    simp only [List.nil_append, getPath]
    cases getSeg data k <;> rfl
  | cons s rest ih =>
    simp only [List.cons_append, getPath]
    cases hg : getSeg data s with
    | none => rfl
    | some c => exact ih c

/-! ### Lemmas about listener notification -/

theorem filterMap_some_eq_map {α β : Type} (f : α → β) (ls : List α) :
    ls.filterMap (fun a => some (f a)) = ls.map f := by
  induction ls with
  | nil => rfl
  | cons a rest ih => simp [List.filterMap_cons, ih]

theorem notify_events_none (ls : List Listener) (f : Listener → Event) :
    (ls.filterMap (fun l => if skipListener none l then none else some (f l))) = ls.map f :=
  filterMap_some_eq_map f ls

/-- With no path and no excluded uuid, `notifyListeners` notifies every
listener, in order, with the value at its own path. -/
theorem notifyListeners_full (fc : MetadataFileCache) :
    notifyListeners fc none none =
      fc.listeners.map (fun l => (l.uuid, getPath fc.metadata l.metadataPath)) := by
  simp only [notifyListeners]
  exact notify_events_none fc.listeners _

theorem notify_events_path (ls : List Listener) (path : List String) (origin : String)
    (h : (origin == "") = false) (val : Option Val) :
    (ls.filterMap (fun l => if skipListener (some origin) l then none
        else if path == l.metadataPath then some (l.uuid, val) else none)) =
      (ls.filter (fun l => path == l.metadataPath && !(l.uuid == origin))).map
        (fun l => (l.uuid, val)) := by
  induction ls with
  | nil => rfl
  | cons l rest ih =>
    rw [List.filterMap_cons, List.filter_cons]
    cases h1 : (origin == l.uuid) with
    | true =>
      have hskip : skipListener (some origin) l = true := by simp [skipListener, h, h1]
      have h2 : (l.uuid == origin) = true := by
        rw [beq_iff_eq] at h1 ⊢; exact h1.symm
      rw [hskip, if_pos rfl, h2]
      simp only [Bool.not_true, Bool.and_false, Bool.false_eq_true, if_false]
      exact ih
    | false =>
      have hskip : skipListener (some origin) l = false := by simp [skipListener, h, h1]
      have h2 : (l.uuid == origin) = false := by
        rw [beq_eq_false_iff_ne] at h1 ⊢; exact fun e => h1 e.symm
      rw [hskip, if_neg (by simp), h2]
      simp only [Bool.not_false, Bool.and_true]
      cases h3 : (path == l.metadataPath) with
      | true =>
        rw [if_pos rfl, if_pos rfl, ih]
        rfl
      | false =>
        rw [if_neg (by simp), if_neg (by simp)]
        exact ih

/-- With a path and a truthy (non-empty) excluded uuid, `notifyListeners`
notifies exactly the listeners whose path equals the given path and whose
uuid differs from the excluded one, each with the value at that path. -/
theorem notifyListeners_path_events (fc : MetadataFileCache) (path : List String)
    (origin : String) (h : (origin == "") = false) :
    notifyListeners fc (some path) (some origin) =
      (fc.listeners.filter (fun l => path == l.metadataPath && !(l.uuid == origin))).map
        (fun l => (l.uuid, getPath fc.metadata path)) := by
  simp only [notifyListeners]
  exact notify_events_path fc.listeners path origin h _

/-! ### Lemmas about the entry table -/

theorem replaceEntry_self (cache : List MetadataFileCache) (filePath : String)
    (fc : MetadataFileCache) (h : cache.find? (fun x => x.filePath == filePath) = some fc) :
    replaceEntry cache filePath fc = cache := by
  induction cache with
  | nil => cases h
  | cons x xs ih =>
    cases hx : (x.filePath == filePath) with
    | true =>
      have hf : (x :: xs).find? (fun y => y.filePath == filePath) = some x :=
        List.find?_cons_of_pos (p := fun y => y.filePath == filePath) xs hx
      rw [hf] at h
      cases h
      simp [replaceEntry, hx]
    | false =>
      have hf : (x :: xs).find? (fun y => y.filePath == filePath) = xs.find? (fun y => y.filePath == filePath) :=
        List.find?_cons_of_neg (p := fun y => y.filePath == filePath) xs (by simp [hx])
      rw [hf] at h
      have hr : replaceEntry (x :: xs) filePath fc = x :: replaceEntry xs filePath fc := by
        simp [replaceEntry, hx]
      rw [hr, ih h]

theorem find?_replaceEntry (cache : List MetadataFileCache) (filePath : String)
    (fc fc2 : MetadataFileCache)
    (h : cache.find? (fun x => x.filePath == filePath) = some fc)
    (h2 : (fc2.filePath == filePath) = true) :
    (replaceEntry cache filePath fc2).find? (fun x => x.filePath == filePath) = some fc2 := by
  induction cache with
  | nil => cases h
  | cons x xs ih =>
    cases hx : (x.filePath == filePath) with
    | true =>
      have hr : replaceEntry (x :: xs) filePath fc2 = fc2 :: xs := by
        simp [replaceEntry, hx]
      rw [hr]
      exact List.find?_cons_of_pos (p := fun y => y.filePath == filePath) xs h2
    | false =>
      have hf : (x :: xs).find? (fun y => y.filePath == filePath) = xs.find? (fun y => y.filePath == filePath) :=
        List.find?_cons_of_neg (p := fun y => y.filePath == filePath) xs (by simp [hx])
      rw [hf] at h
      have hr : replaceEntry (x :: xs) filePath fc2 = x :: replaceEntry xs filePath fc2 := by
        simp [replaceEntry, hx]
      have hf2 : (x :: replaceEntry xs filePath fc2).find? (fun y => y.filePath == filePath)
          = (replaceEntry xs filePath fc2).find? (fun y => y.filePath == filePath) :=
        List.find?_cons_of_neg (p := fun y => y.filePath == filePath)
          (replaceEntry xs filePath fc2) (by simp [hx])
      rw [hr, hf2, ih h]

/-! ### Lemmas about the tick cycle -/

theorem tickEntry_fst_eq (w : Nat) (fc : MetadataFileCache) :
    (tickEntry w fc).1 = (tickEntry 0 fc).1 := by
  cases hc : fc.changed <;> simp [tickEntry, hc]

theorem tickEntry_filePath (w : Nat) (fc : MetadataFileCache) :
    (tickEntry w fc).1.filePath = fc.filePath := by
  cases hc : fc.changed <;> simp [tickEntry, hc]

theorem tickEntry_entryId (w : Nat) (fc : MetadataFileCache) :
    (tickEntry w fc).1.entryId = fc.entryId := by
  cases hc : fc.changed <;> simp [tickEntry, hc]

theorem tickEntry_cycles (w : Nat) (fc : MetadataFileCache) :
    (tickEntry w fc).1.cyclesSinceLastUpdate = fc.cyclesSinceLastUpdate + 1 := by
  cases hc : fc.changed <;> simp [tickEntry, hc]

theorem tickCache_fst (cache : List MetadataFileCache) (wid : Nat) :
    (tickCache wid cache).1 = cache.map (fun c => (tickEntry 0 c).1) := by
  induction cache generalizing wid with
  | nil => rfl
  | cons fc rest ih =>
    simp only [tickCache, List.map_cons]
    rw [tickEntry_fst_eq, ih]

theorem getCacheForFile_tick (m : MetadataManager) (filePath : String) :
    getCacheForFile (tick m) filePath =
      (getCacheForFile m filePath).map (fun c => (tickEntry 0 c).1) := by
  show ((tickCache m.nextWriteId m.cache).1.find? (fun x => x.filePath == filePath))
      = (m.cache.find? (fun x => x.filePath == filePath)).map (fun c => (tickEntry 0 c).1)
  rw [tickCache_fst, List.find?_map]
  have : ((fun x : MetadataFileCache => x.filePath == filePath) ∘ fun c => (tickEntry 0 c).1)
      = (fun x : MetadataFileCache => x.filePath == filePath) := by
    funext c
    simp [Function.comp, tickEntry_filePath]
  rw [this]

theorem tickCache_write (filePath : String) (cache : List MetadataFileCache) (wid : Nat)
    (fc : MetadataFileCache)
    (h : cache.find? (fun x => x.filePath == filePath) = some fc)
    (hch : fc.changed = true) :
    ∃ w ∈ (tickCache wid cache).2.1, w.entryId = fc.entryId ∧ w.payload = fc.metadata := by
  induction cache generalizing wid with
  | nil => cases h
  | cons x xs ih =>
    cases hx : (x.filePath == filePath) with
    | true =>
      have hf : (x :: xs).find? (fun y => y.filePath == filePath) = some x :=
        List.find?_cons_of_pos (p := fun y => y.filePath == filePath) xs hx
      rw [hf] at h
      cases h
      refine ⟨{ writeId := wid, entryId := fc.entryId, payload := fc.metadata }, ?_, rfl, rfl⟩
      simp only [tickCache]
      simp [tickEntry, hch]
    | false =>
      have hf : (x :: xs).find? (fun y => y.filePath == filePath)
          = xs.find? (fun y => y.filePath == filePath) :=
        List.find?_cons_of_neg (p := fun y => y.filePath == filePath) xs (by simp [hx])
      rw [hf] at h
      obtain ⟨w, hw, he, hp⟩ := ih (wid + (tickEntry wid x).2.length) h
      refine ⟨w, ?_, he, hp⟩
      simp only [tickCache]
      exact List.mem_append.mpr (Or.inr hw)

theorem tick_write_of_changed (m : MetadataManager) (filePath : String)
    (fc : MetadataFileCache) (h : getCacheForFile m filePath = some fc)
    (hch : fc.changed = true) :
    ∃ w ∈ (tick m).pendingWrites, w.entryId = fc.entryId ∧ w.payload = fc.metadata := by
  obtain ⟨w, hw, he, hp⟩ := tickCache_write filePath m.cache m.nextWriteId fc h hch
  exact ⟨w, List.mem_append.mpr (Or.inr hw), he, hp⟩

theorem iterate_tick_threshold (m : MetadataManager) (k : Nat) :
    (tick^[k] m).updateCycleThreshold = m.updateCycleThreshold := by
  induction k with
  | zero => rfl
  | succ n ih => rw [Function.iterate_succ_apply']; exact ih

theorem getCacheForFile_iterate_tick (m : MetadataManager) (filePath : String)
    (fc : MetadataFileCache) (k : Nat) (h : getCacheForFile m filePath = some fc) :
    ∃ fc2, getCacheForFile (tick^[k] m) filePath = some fc2 ∧
      fc2.cyclesSinceLastUpdate = fc.cyclesSinceLastUpdate + k := by
  induction k with
  | zero => exact ⟨fc, h, rfl⟩
  | succ n ih =>
    obtain ⟨fc2, h2, hc2⟩ := ih
    refine ⟨(tickEntry 0 fc2).1, ?_, ?_⟩
    · rw [Function.iterate_succ_apply', getCacheForFile_tick, h2]
      rfl
    · rw [tickEntry_cycles, hc2]
      omega

/-! ### Claim theorems -/

/-- C10: for a document with no cache entry, `updatePropertyInMetadataFileCache`
returns silently — no error (in particular no MissingParentPath), no entry
created, nobody notified — and `unregister` is likewise a silent no-op
(both guard on `getCacheForFile` and return early). -/
theorem C10_no_entry_silent (m : MetadataManager) (value : Val) (pathParts : List String)
    (filePath : String) (uuid : Option String) (uuid2 : String)
    (h : getCacheForFile m filePath = none) :
    updatePropertyInMetadataFileCache m value pathParts filePath uuid = (m, [], none) ∧
    unregister m filePath uuid2 = m := by
  constructor
  · simp [updatePropertyInMetadataFileCache, h]
  · simp [unregister, h]

theorem C10_no_entry_silent_witness :
    getCacheForFile emptyManager "f" = none ∧
    (updatePropertyInMetadataFileCache emptyManager (Val.vnum 1) ["a"] "f" (some "u")
        = (emptyManager, [], none) ∧
      unregister emptyManager "f" "u" = emptyManager) :=
  ⟨rfl, C10_no_entry_silent emptyManager (Val.vnum 1) ["a"] "f" (some "u") "u" rfl⟩

/-- C3: when the path's parent chain does not resolve (`parent.value ===
undefined`), `updatePropertyInMetadataFileCache` throws MissingParentPath
synchronously and the whole registry state — the entry's data, dirty flag,
recency counter and listener set included — is exactly what it was before
the call (the throw on line 127 precedes every mutation). -/
theorem C3_missing_parent_atomic (m : MetadataManager) (value : Val) (pathParts : List String)
    (filePath : String) (uuid : Option String) (fc : MetadataFileCache)
    (hfc : getCacheForFile m filePath = some fc)
    (hpar : getPath fc.metadata pathParts.dropLast = none) :
    updatePropertyInMetadataFileCache m value pathParts filePath uuid =
      (m, [], some UpdateError.missingParentPath) := by
  simp [updatePropertyInMetadataFileCache, hfc, updatePropertyInCache, hpar]

theorem C3_missing_parent_atomic_witness :
    getCacheForFile managerAB "f" = some entryAB ∧
    getPath entryAB.metadata (["x", "b"].dropLast) = none ∧
    updatePropertyInMetadataFileCache managerAB (Val.vnum 2) ["x", "b"] "f" (some "L1") =
      (managerAB, [], some UpdateError.missingParentPath) :=
  ⟨rfl, rfl,
    C3_missing_parent_atomic managerAB (Val.vnum 2) ["x", "b"] "f" (some "L1") entryAB rfl rfl⟩

/-- C2 counterexample: the claim says a deep-structurally-equal value is a
no-op, but the source compares with JavaScript `===` (line 130), which is
reference equality on mappings.  Here the value stored at path `["a"]` is
the mapping `{b: 1}` and the consumer supplies a fresh deep-equal `{b: 1}`:
the update is NOT suppressed — the entry is marked dirty, its recency
counter is reset to 0, and the listener on `["a"]` is notified. -/
theorem C2_counterexample_deep_equal_applied :
    getPath c2Entry.metadata ["a"] = some (Val.vobj [("b", Val.vnum 1)]) ∧
    (updatePropertyInMetadataFileCache c2Manager (Val.vobj [("b", Val.vnum 1)])
        ["a"] "f" (some "L1")).2.1 = [("L2", some (Val.vobj [("b", Val.vnum 1)]))] ∧
    ((updatePropertyInMetadataFileCache c2Manager (Val.vobj [("b", Val.vnum 1)])
        ["a"] "f" (some "L1")).1.cache.map
      (fun c => (c.changed, c.cyclesSinceLastUpdate))) = [(true, 0)] :=
  ⟨rfl, rfl, rfl⟩

/-- C2 (amended): redundant-update suppression uses JavaScript strict
equality, which is deep equality only on scalars.  When the stored child is
strict-equal to the supplied value the call is a complete no-op: the
registry state (data, dirty flag, recency counter, listeners) is returned
unchanged, no listener is notified, no error is thrown, and — the entry not
having been marked dirty — a tick of a clean entry issues no persistence
write. -/
theorem C2_strict_equal_noop (m : MetadataManager) (value : Val) (pathParts : List String)
    (filePath : String) (uuid : Option String) (fc : MetadataFileCache) (parentVal : Val)
    (w : Nat)
    (hfc : getCacheForFile m filePath = some fc)
    (hpar : getPath fc.metadata pathParts.dropLast = some parentVal)
    (hsup : jsStrictEqOpt (match pathParts.getLast? with
      | some k => getSeg parentVal k
      | none => none) value = true) :
    updatePropertyInMetadataFileCache m value pathParts filePath uuid = (m, [], none) ∧
    (fc.changed = false → (tickEntry w fc).2 = []) := by
  refine ⟨?_, fun h => by simp [tickEntry, h]⟩
  have hrep : replaceEntry m.cache filePath fc = m.cache :=
    replaceEntry_self m.cache filePath fc hfc
  simp only [updatePropertyInMetadataFileCache, hfc, updatePropertyInCache, hpar, hsup,
    if_true, hrep]

theorem C2_strict_equal_noop_witness :
    updatePropertyInMetadataFileCache managerAB (Val.vnum 1) ["a", "b"] "f" (some "L1")
        = (managerAB, [], none) ∧
    (entryAB.changed = false → (tickEntry 0 entryAB).2 = []) :=
  C2_strict_equal_noop managerAB (Val.vnum 1) ["a", "b"] "f" (some "L1") entryAB
    (Val.vobj [("b", Val.vnum 1)]) 0 rfl rfl rfl

/-- C4 counterexample: the claim says the listener whose id equals `originId`
is never called, for every originId.  But the exclusion check
`exceptUuid && exceptUuid === listener.uuid` (line 171) is disabled by a
falsy (empty-string) `exceptUuid`: calling with `originId = ""` on an entry
whose listener has uuid `""` notifies that very listener — the origin
receives its own echo. -/
theorem C4_counterexample_empty_origin :
    (updatePropertyInMetadataFileCache c4Manager (Val.vnum 2) ["a", "b"] "f" (some "")).2.1
      = [("", some (Val.vnum 2))] := rfl

/-- C4 (amended): for every call of `updatePropertyInMetadataFileCache`
that takes effect — the located parent exists and is a mapping or sequence
(the assignment always succeeds on a container, in-range or not; only a
scalar parent makes it throw), and the stored child is not strict-equal to
the new value — the entry's
data afterwards holds the value at the path, the dirty flag is set, the
recency counter is zero, the listener set is unchanged, no error is thrown,
and exactly those listeners whose registered path equals the updated path
and whose uuid differs from `originId` are called, each with the new value;
provided `originId` is non-empty (a falsy empty `originId` disables the
origin exclusion), no event goes to the origin uuid. -/
theorem C4_effective_update (m : MetadataManager) (value : Val) (pathParts : List String)
    (filePath : String) (origin : String) (fc : MetadataFileCache) (parentVal md2 : Val)
    (hor : (origin == "") = false)
    (hfc : getCacheForFile m filePath = some fc)
    (hpar : getPath fc.metadata pathParts.dropLast = some parentVal)
    (hsup : jsStrictEqOpt (match pathParts.getLast? with
      | some k => getSeg parentVal k
      | none => none) value = false)
    (hset : setAtPath fc.metadata pathParts value = some md2) :
    ∃ fc2,
      getCacheForFile
        (updatePropertyInMetadataFileCache m value pathParts filePath (some origin)).1
        filePath = some fc2 ∧
      fc2.metadata = md2 ∧
      getPath fc2.metadata pathParts = some value ∧
      fc2.changed = true ∧
      fc2.cyclesSinceLastUpdate = 0 ∧
      fc2.listeners = fc.listeners ∧
      (updatePropertyInMetadataFileCache m value pathParts filePath (some origin)).2.2
        = none ∧
      (updatePropertyInMetadataFileCache m value pathParts filePath (some origin)).2.1
        = (fc.listeners.filter
            (fun l => pathParts == l.metadataPath && !(l.uuid == origin))).map
              (fun l => (l.uuid, some value)) ∧
      ∀ e ∈ (updatePropertyInMetadataFileCache m value pathParts filePath (some origin)).2.1,
        ¬(e.1 = origin) := by
  have hfc2 : m.cache.find? (fun x => x.filePath == filePath) = some fc := hfc
  have hfp0 := List.find?_some hfc2
  have hfp : (fc.filePath == filePath) = true := hfp0
  have hval : getPath md2 pathParts = some value :=
    getPath_setAtPath pathParts fc.metadata md2 value hset
  have hrun : updatePropertyInMetadataFileCache m value pathParts filePath (some origin)
      = ({ m with cache := replaceEntry m.cache filePath (storeDirty fc md2) },
         notifyListeners (storeDirty fc md2) (some pathParts) (some origin),
         none) := by
    simp only [updatePropertyInMetadataFileCache, hfc, updatePropertyInCache, hpar, hsup,
      Bool.false_eq_true, if_false, hset]
  refine ⟨storeDirty fc md2, ?_, rfl, hval, rfl, rfl, rfl, ?_, ?_, ?_⟩
  · rw [hrun]
    exact find?_replaceEntry m.cache filePath fc _ hfc hfp
  · rw [hrun]
  · rw [hrun]
    show notifyListeners _ (some pathParts) (some origin) = _
    rw [notifyListeners_path_events _ pathParts origin hor]
    simp only [storeDirty, hval]
  · intro e he
    rw [hrun] at he
    replace he : e ∈ notifyListeners (storeDirty fc md2) (some pathParts) (some origin) := he
    rw [notifyListeners_path_events _ pathParts origin hor] at he
    obtain ⟨l, hl, rfl⟩ := List.mem_map.mp he
    have hcond := (List.mem_filter.mp hl).2
    intro hq2
    have hq3 : l.uuid = origin := hq2
    simp [hq3] at hcond

theorem C4_effective_update_witness :
    ∃ fc2,
      getCacheForFile
        (updatePropertyInMetadataFileCache c4ArrManager (Val.vnum 7) ["xs", "5"] "f"
          (some "L1")).1 "f" = some fc2 ∧
      fc2.metadata = Val.vobj [("xs", Val.varr
        [some (Val.vnum 1), some (Val.vnum 2), none, none, none, some (Val.vnum 7)] [])] ∧
      getPath fc2.metadata ["xs", "5"] = some (Val.vnum 7) ∧
      fc2.changed = true ∧
      fc2.cyclesSinceLastUpdate = 0 ∧
      fc2.listeners = c4ArrEntry.listeners ∧
      (updatePropertyInMetadataFileCache c4ArrManager (Val.vnum 7) ["xs", "5"] "f"
        (some "L1")).2.2 = none ∧
      (updatePropertyInMetadataFileCache c4ArrManager (Val.vnum 7) ["xs", "5"] "f"
        (some "L1")).2.1
        = (c4ArrEntry.listeners.filter
            (fun l => ["xs", "5"] == l.metadataPath && !(l.uuid == "L1"))).map
              (fun l => (l.uuid, some (Val.vnum 7))) ∧
      ∀ e ∈ (updatePropertyInMetadataFileCache c4ArrManager (Val.vnum 7) ["xs", "5"] "f"
        (some "L1")).2.1, ¬(e.1 = "L1") :=
  C4_effective_update c4ArrManager (Val.vnum 7) ["xs", "5"] "f" "L1" c4ArrEntry
    (Val.varr [some (Val.vnum 1), some (Val.vnum 2)] [])
    (Val.vobj [("xs", Val.varr
      [some (Val.vnum 1), some (Val.vnum 2), none, none, none, some (Val.vnum 7)] [])])
    rfl rfl rfl rfl rfl


/-- C1: an external change notification for a cached document is discarded
while the entry's recency counter is below 5 (the default
`updateCycleThreshold`) — the whole registry state is unchanged and no
listener is called — and once the counter is at least 5 the snapshot is
applied as the entry's new data and every listener is notified with the
value found at its own path in the new data.  (The hypothesis `hpos`
states that the snapshot carries no `position` key, the change source's
bookkeeping field that ingestion deletes before applying.) -/
theorem C1_external_change_gate (m : MetadataManager) (filePath : String)
    (frontmatter : List (String × Val)) (fc : MetadataFileCache)
    (hfc : getCacheForFile m filePath = some fc)
    (hthr : m.updateCycleThreshold = 5)
    (hpos : ∀ p ∈ frontmatter, ¬(p.1 = "position")) :
    (fc.cyclesSinceLastUpdate < 5 →
      updateMetadataFileCacheOnFrontmatterUpdate m filePath frontmatter = (m, [])) ∧
    (5 ≤ fc.cyclesSinceLastUpdate →
      ∃ fc2,
        getCacheForFile
          (updateMetadataFileCacheOnFrontmatterUpdate m filePath frontmatter).1 filePath
          = some fc2 ∧
        fc2.metadata = Val.vobj frontmatter ∧
        fc2.listeners = fc.listeners ∧
        (updateMetadataFileCacheOnFrontmatterUpdate m filePath frontmatter).2
          = fc.listeners.map
              (fun l => (l.uuid, getPath (Val.vobj frontmatter) l.metadataPath))) := by
  have hfilter : frontmatter.filter (fun p => !(p.1 == "position")) = frontmatter :=
    List.filter_eq_self.mpr (fun p hp => by simp [hpos p hp])
  constructor
  · intro hlt
    have hlt2 : fc.cyclesSinceLastUpdate < m.updateCycleThreshold := by omega
    simp [updateMetadataFileCacheOnFrontmatterUpdate, hfc, hlt2]
  · intro hge
    have hnlt : ¬(fc.cyclesSinceLastUpdate < m.updateCycleThreshold) := by omega
    have hrun : updateMetadataFileCacheOnFrontmatterUpdate m filePath frontmatter
        = ({ m with cache :=
              (replaceEntry m.cache filePath (storeDirty fc (Val.vobj frontmatter))) },
           notifyListeners (storeDirty fc (Val.vobj frontmatter)) none none) := by
      simp only [updateMetadataFileCacheOnFrontmatterUpdate, hfc, hfilter]
      rw [if_neg hnlt]
    have hfc2 : m.cache.find? (fun x => x.filePath == filePath) = some fc := hfc
    have hfp0 := List.find?_some hfc2
    have hfp : (fc.filePath == filePath) = true := hfp0
    refine ⟨storeDirty fc (Val.vobj frontmatter), ?_, rfl, rfl, ?_⟩
    · rw [hrun]
      exact find?_replaceEntry m.cache filePath fc _ hfc hfp
    · rw [hrun]
      show notifyListeners _ none none = _
      rw [notifyListeners_full]
      rfl

theorem C1_external_change_gate_witness :
    (entryAB5.cyclesSinceLastUpdate < 5 →
      updateMetadataFileCacheOnFrontmatterUpdate managerAB5 "f"
        [("a", Val.vobj [("b", Val.vnum 9)])] = (managerAB5, [])) ∧
    (5 ≤ entryAB5.cyclesSinceLastUpdate →
      ∃ fc2,
        getCacheForFile
          (updateMetadataFileCacheOnFrontmatterUpdate managerAB5 "f"
            [("a", Val.vobj [("b", Val.vnum 9)])]).1 "f" = some fc2 ∧
        fc2.metadata = Val.vobj [("a", Val.vobj [("b", Val.vnum 9)])] ∧
        fc2.listeners = entryAB5.listeners ∧
        (updateMetadataFileCacheOnFrontmatterUpdate managerAB5 "f"
          [("a", Val.vobj [("b", Val.vnum 9)])]).2
          = entryAB5.listeners.map
              (fun l => (l.uuid,
                getPath (Val.vobj [("a", Val.vobj [("b", Val.vnum 9)])]) l.metadataPath))) :=
  C1_external_change_gate managerAB5 "f" [("a", Val.vobj [("b", Val.vnum 9)])] entryAB5
    rfl rfl (by decide)

/-- C9: when an external change is accepted (counter at or past the
threshold), the entry's counter is reset to zero and its dirty flag set, so
the next tick issues a persistence write of the just-ingested snapshot, and
any further external change arriving within the next 5 ticks is discarded
even though no local consumer write occurred. -/
theorem C9_accepted_ingest (m : MetadataManager) (filePath : String)
    (frontmatter : List (String × Val)) (fc : MetadataFileCache)
    (hfc : getCacheForFile m filePath = some fc)
    (hthr : m.updateCycleThreshold = 5)
    (hge : 5 ≤ fc.cyclesSinceLastUpdate) :
    ∃ fc2,
      getCacheForFile
        (updateMetadataFileCacheOnFrontmatterUpdate m filePath frontmatter).1 filePath
        = some fc2 ∧
      fc2.cyclesSinceLastUpdate = 0 ∧
      fc2.changed = true ∧
      fc2.metadata = Val.vobj (frontmatter.filter (fun p => !(p.1 == "position"))) ∧
      (∃ w ∈ (tick
          (updateMetadataFileCacheOnFrontmatterUpdate m filePath frontmatter).1).pendingWrites,
        w.entryId = fc2.entryId ∧ w.payload = fc2.metadata) ∧
      (∀ k, k < 5 → ∀ snap2,
        updateMetadataFileCacheOnFrontmatterUpdate
            (tick^[k] (updateMetadataFileCacheOnFrontmatterUpdate m filePath frontmatter).1)
            filePath snap2
          = (tick^[k] (updateMetadataFileCacheOnFrontmatterUpdate m filePath frontmatter).1,
             [])) := by
  have hnlt : ¬(fc.cyclesSinceLastUpdate < m.updateCycleThreshold) := by omega
  have hrun : updateMetadataFileCacheOnFrontmatterUpdate m filePath frontmatter
      = ({ m with cache :=
            (replaceEntry m.cache filePath
              (storeDirty fc
                (Val.vobj (frontmatter.filter (fun p => !(p.1 == "position")))))) },
         notifyListeners
           (storeDirty fc (Val.vobj (frontmatter.filter (fun p => !(p.1 == "position")))))
           none none) := by
    simp only [updateMetadataFileCacheOnFrontmatterUpdate, hfc]
    rw [if_neg hnlt]
  have hfc2 : m.cache.find? (fun x => x.filePath == filePath) = some fc := hfc
  have hfp0 := List.find?_some hfc2
  have hfp : (fc.filePath == filePath) = true := hfp0
  have hfound : getCacheForFile
      (updateMetadataFileCacheOnFrontmatterUpdate m filePath frontmatter).1 filePath
      = some (storeDirty fc (Val.vobj (frontmatter.filter (fun p => !(p.1 == "position"))))) := by
    rw [hrun]
    exact find?_replaceEntry m.cache filePath fc _ hfc hfp
  refine ⟨storeDirty fc (Val.vobj (frontmatter.filter (fun p => !(p.1 == "position")))),
    hfound, rfl, rfl, rfl, ?_, ?_⟩
  · exact tick_write_of_changed _ filePath _ hfound rfl
  · intro k hk snap2
    obtain ⟨fc3, hfc3, hcyc3⟩ :=
      getCacheForFile_iterate_tick
        (updateMetadataFileCacheOnFrontmatterUpdate m filePath frontmatter).1 filePath
        (storeDirty fc (Val.vobj (frontmatter.filter (fun p => !(p.1 == "position"))))) k hfound
    have hthr2 : (tick^[k]
        (updateMetadataFileCacheOnFrontmatterUpdate m filePath frontmatter).1).updateCycleThreshold
        = 5 := by
      rw [iterate_tick_threshold]
      rw [hrun]
      exact hthr
    have hlt3 : fc3.cyclesSinceLastUpdate <
        (tick^[k]
          (updateMetadataFileCacheOnFrontmatterUpdate m filePath frontmatter).1).updateCycleThreshold := by
      rw [hthr2]
      simp only [storeDirty] at hcyc3
      omega
    revert hfc3 hlt3
    generalize (tick^[k] (updateMetadataFileCacheOnFrontmatterUpdate m filePath frontmatter).1) = M
    intro hfc3 hlt3
    simp [updateMetadataFileCacheOnFrontmatterUpdate, hfc3, hlt3]

theorem C9_accepted_ingest_witness :
    ∃ fc2,
      getCacheForFile
        (updateMetadataFileCacheOnFrontmatterUpdate managerAB5 "f"
          [("a", Val.vobj [("b", Val.vnum 9)])]).1 "f" = some fc2 ∧
      fc2.cyclesSinceLastUpdate = 0 ∧
      fc2.changed = true ∧
      fc2.metadata = Val.vobj ([("a", Val.vobj [("b", Val.vnum 9)])].filter
        (fun p => !(p.1 == "position"))) ∧
      (∃ w ∈ (tick
          (updateMetadataFileCacheOnFrontmatterUpdate managerAB5 "f"
            [("a", Val.vobj [("b", Val.vnum 9)])]).1).pendingWrites,
        w.entryId = fc2.entryId ∧ w.payload = fc2.metadata) ∧
      (∀ k, k < 5 → ∀ snap2,
        updateMetadataFileCacheOnFrontmatterUpdate
            (tick^[k] (updateMetadataFileCacheOnFrontmatterUpdate managerAB5 "f"
              [("a", Val.vobj [("b", Val.vnum 9)])]).1) "f" snap2
          = (tick^[k] (updateMetadataFileCacheOnFrontmatterUpdate managerAB5 "f"
              [("a", Val.vobj [("b", Val.vnum 9)])]).1, [])) :=
  C9_accepted_ingest managerAB5 "f" [("a", Val.vobj [("b", Val.vnum 9)])] entryAB5
    rfl rfl (by decide)


/-- C7: unregistering a document's last remaining listener deletes its cache
entry synchronously, and a subsequent register for the same document creates
a fresh entry — empty data, counter 0, not dirty, only the new listener —
and begins a new asynchronous load from the store rather than reusing any
prior in-memory state. -/
theorem C7_unregister_last_then_register (m : MetadataManager) (filePath : String)
    (fc : MetadataFileCache) (l0 l2 : Listener)
    (hfc : getCacheForFile m filePath = some fc)
    (hl : fc.listeners = [l0]) :
    getCacheForFile (unregister m filePath l0.uuid) filePath = none ∧
    (register (unregister m filePath l0.uuid) filePath l2).2.1.metadata = Val.vobj [] ∧
    (register (unregister m filePath l0.uuid) filePath l2).2.1.listeners = [l2] ∧
    (register (unregister m filePath l0.uuid) filePath l2).2.1.cyclesSinceLastUpdate = 0 ∧
    (register (unregister m filePath l0.uuid) filePath l2).2.1.changed = false ∧
    (register (unregister m filePath l0.uuid) filePath l2).1.pendingLoads
      = (unregister m filePath l0.uuid).pendingLoads
        ++ [(unregister m filePath l0.uuid).nextEntryId] ∧
    getCacheForFile (register (unregister m filePath l0.uuid) filePath l2).1 filePath
      = some (register (unregister m filePath l0.uuid) filePath l2).2.1 := by
  have hempty : fc.listeners.filter (fun x => !(x.uuid == l0.uuid)) = [] := by
    rw [hl]
    simp
  have hrunU : unregister m filePath l0.uuid
      = { m with cache :=
          ((replaceEntry m.cache filePath { fc with listeners := [] }).filter
            (fun x => !(x.filePath == filePath))) } := by
    simp only [unregister, hfc, hempty]
    rfl
  have hnone : getCacheForFile (unregister m filePath l0.uuid) filePath = none := by
    rw [hrunU]
    apply List.find?_eq_none.mpr
    intro x hx
    have hcond := (List.mem_filter.mp hx).2
    simp only [Bool.not_eq_true'] at hcond
    simp [hcond]
  refine ⟨hnone, ?_, ?_, ?_, ?_, ?_, ?_⟩
  · simp [register, hnone]
  · simp [register, hnone]
  · simp [register, hnone]
  · simp [register, hnone]
  · simp [register, hnone]
  · have h1 : (unregister m filePath l0.uuid).cache.find?
        (fun x => x.filePath == filePath) = none := hnone
    simp only [getCacheForFile, register, h1]
    rw [List.find?_append, h1]
    simp

theorem C7_unregister_last_then_register_witness :
    getCacheForFile (unregister c2Manager "f" "L2") "f" = none ∧
    (register (unregister c2Manager "f" "L2") "f" listener1).2.1.metadata = Val.vobj [] ∧
    (register (unregister c2Manager "f" "L2") "f" listener1).2.1.listeners = [listener1] ∧
    (register (unregister c2Manager "f" "L2") "f" listener1).2.1.cyclesSinceLastUpdate = 0 ∧
    (register (unregister c2Manager "f" "L2") "f" listener1).2.1.changed = false ∧
    (register (unregister c2Manager "f" "L2") "f" listener1).1.pendingLoads
      = (unregister c2Manager "f" "L2").pendingLoads
        ++ [(unregister c2Manager "f" "L2").nextEntryId] ∧
    getCacheForFile (register (unregister c2Manager "f" "L2") "f" listener1).1 "f"
      = some (register (unregister c2Manager "f" "L2") "f" listener1).2.1 :=
  C7_unregister_last_then_register c2Manager "f" c2Entry
    { metadataPath := ["a"], uuid := "L2" } listener1 rfl rfl

/-- C8: the asynchronous load from the store starts exactly once, when the
entry is created; a later register on an existing entry appends one
listener record to the same entry and returns it, starts no second load,
creates no new entry, and performs no (retroactive) callback invocation —
load notification happens only in the separate `resolveLoad` step. -/
theorem C8_register_single_load (m : MetadataManager) (filePath : String) (l : Listener) :
    (∀ fc, getCacheForFile m filePath = some fc →
      (register m filePath l).1.pendingLoads = m.pendingLoads ∧
      (register m filePath l).1.nextEntryId = m.nextEntryId ∧
      (register m filePath l).2.1.entryId = fc.entryId ∧
      (register m filePath l).2.1.metadata = fc.metadata ∧
      (register m filePath l).2.1.listeners = fc.listeners ++ [l] ∧
      (register m filePath l).2.2 = [] ∧
      getCacheForFile (register m filePath l).1 filePath = some (register m filePath l).2.1) ∧
    (getCacheForFile m filePath = none →
      (register m filePath l).1.pendingLoads = m.pendingLoads ++ [m.nextEntryId] ∧
      (register m filePath l).2.2 = []) := by
  constructor
  · intro fc hfc
    have hfc2 : m.cache.find? (fun x => x.filePath == filePath) = some fc := hfc
    have hfp0 := List.find?_some hfc2
    have hfp : (fc.filePath == filePath) = true := hfp0
    have hrunR : register m filePath l
        = ({ m with cache :=
              (replaceEntry m.cache filePath { fc with listeners := fc.listeners ++ [l] }) },
            { fc with listeners := fc.listeners ++ [l] },
            []) := by
      simp only [register, hfc]
    refine ⟨by rw [hrunR], by rw [hrunR], by rw [hrunR], by rw [hrunR], by rw [hrunR],
      by rw [hrunR], ?_⟩
    rw [hrunR]
    exact find?_replaceEntry m.cache filePath fc _ hfc hfp
  · intro hnone
    constructor
    · simp [register, hnone]
    · simp [register, hnone]

theorem C8_register_single_load_witness :
    ((∀ fc, getCacheForFile managerAB "f" = some fc →
      (register managerAB "f" { metadataPath := ["a"], uuid := "L3" }).1.pendingLoads
        = managerAB.pendingLoads ∧
      (register managerAB "f" { metadataPath := ["a"], uuid := "L3" }).1.nextEntryId
        = managerAB.nextEntryId ∧
      (register managerAB "f" { metadataPath := ["a"], uuid := "L3" }).2.1.entryId
        = fc.entryId ∧
      (register managerAB "f" { metadataPath := ["a"], uuid := "L3" }).2.1.metadata
        = fc.metadata ∧
      (register managerAB "f" { metadataPath := ["a"], uuid := "L3" }).2.1.listeners
        = fc.listeners ++ [{ metadataPath := ["a"], uuid := "L3" }] ∧
      (register managerAB "f" { metadataPath := ["a"], uuid := "L3" }).2.2 = [] ∧
      getCacheForFile (register managerAB "f" { metadataPath := ["a"], uuid := "L3" }).1 "f"
        = some (register managerAB "f" { metadataPath := ["a"], uuid := "L3" }).2.1) ∧
    (getCacheForFile managerAB "f" = none →
      (register managerAB "f" { metadataPath := ["a"], uuid := "L3" }).1.pendingLoads
        = managerAB.pendingLoads ++ [managerAB.nextEntryId] ∧
      (register managerAB "f" { metadataPath := ["a"], uuid := "L3" }).2.2 = [])) :=
  C8_register_single_load managerAB "f" { metadataPath := ["a"], uuid := "L3" }

/-- C5: evaluation of the code at the failing input of the serialization
claim.  The entry is dirty; the first tick issues write 0 and clears the
dirty flag at issue time; a local update re-dirties the entry; the second
tick — while write 0 is still pending, no completion step having run —
issues write 1 for the same entry.  The claim (and spec §5) says a second
write must not be issued while one is in flight and the entry should stay
dirty for retry: the code has no in-flight tracking at all. -/
theorem C5_overlapping_writes_eval :
    c5AfterFirstTick.pendingWrites.map (fun w => (w.writeId, w.entryId)) = [(0, 0)] ∧
    (c5AfterFirstTick.cache.map (fun c => c.changed)) = [false] ∧
    c5AfterSecondTick.pendingWrites.map (fun w => (w.writeId, w.entryId))
      = [(0, 0), (1, 0)] :=
  ⟨rfl, rfl, rfl⟩

/-- C6: evaluation of the code at the failing input of the persistence-
failure claim.  A dirty entry's write is issued by a tick (dirty cleared at
issue time, before any completion); the write then fails — `update()`
neither awaits nor catches `updateFrontmatter`, so nothing restores the
flag — and the next tick issues no retry (`pendingWrites` stays empty).
Likewise a failed initial read leaves the registered entry's metadata empty
with no new read started.  The claim says the error is caught and the entry
remains dirty (write) for retry on the next tick: the code does neither. -/
theorem C6_failure_not_retried_eval :
    (c6Issued.cache.map (fun c => c.changed)) = [false] ∧
    c6Issued.pendingWrites.map (fun w => w.writeId) = [0] ∧
    (c6Failed.cache.map (fun c => c.changed)) = [false] ∧
    c6Failed.pendingWrites = [] ∧
    c6NextTick.pendingWrites = [] ∧
    c6ReadStart.pendingLoads = [0] ∧
    c6ReadFailed.pendingLoads = [] ∧
    (c6ReadFailed.cache.map (fun c => c.metadata)) = [Val.vobj []] :=
  ⟨rfl, rfl, rfl, rfl, rfl, rfl, rfl, rfl⟩

end MetaBind
